import Mathlib

/-!
# Verification of the battle-leaderboard rating core (src/script.js)

Shallow embedding of the rating engine (`calculateElo`, lines 29–80), the
caller-visible effect of its in-place sort (line 44), the timeline sort of
`displayBattleList` (line 110), and the battle lookup of
`displayBattleDetails` (line 139).

JS numbers are modelled by exact reals (`ℝ`); `Math.pow(10, e)` is real
exponentiation `(10 : ℝ) ^ e`.  Timestamps are modelled as integers (the
comparator `new Date(a.timestamp_start) - new Date(b.timestamp_start)`
compares the time values, which are totally ordered numbers).  A JS object
used as a map is modelled as an association list in key-insertion order,
with first-match lookup and in-place first-match update.
-/

namespace Cob

/-- `model_A_info` / `model_B_info`: only the `name` field is read by the
rating engine (lines 35–36, 47–48). -/
structure ModelInfo where
  name : String
deriving DecidableEq, Repr

/-- A battle record, restricted to the fields that the modelled functions
read: `battle_id` (line 139), `timestamp_start` (lines 44, 110),
`battle_outcome` (lines 62, 65) and the two participant descriptors. -/
structure Battle where
  battle_id : String
  timestamp_start : Int
  battle_outcome : String
  model_A_info : ModelInfo
  model_B_info : ModelInfo
deriving DecidableEq, Repr

/-- One value of the `eloScores` map: `{ rating, battlesPlayed }` (line 40). -/
structure EloEntry where
  rating : ℝ
  battlesPlayed : Nat

/-- `const ELO_K_FACTOR = 32` (line 2). -/
def ELO_K_FACTOR : ℝ := 32

/-- `const ELO_DEFAULT_RATING = 1500` (line 3). -/
def ELO_DEFAULT_RATING : ℝ := 1500

/-- The `eloScores` JS object, as an association list in key-insertion
order. -/
abbrev EloTable := List (String × EloEntry)

/-- Property read `eloScores[name]`: first entry with the given key. -/
def lookupEntry : EloTable → String → Option EloEntry
  | [], _ => none
  | (k, v) :: rest, name => if k = name then some v else lookupEntry rest name

/-- In-place mutation of the entry stored at `name` (JS objects hold one
entry per key; the first match is the entry). Absent key: no effect (the
code only updates keys it has just ensured are present). -/
def updateEntry : EloTable → String → (EloEntry → EloEntry) → EloTable
  | [], _, _ => []
  | (k, v) :: rest, name, f =>
      if k = name then (k, f v) :: rest else (k, v) :: updateEntry rest name f

/-- Lines 51–52: `if (!eloScores[m]) eloScores[m] = { rating: ELO_DEFAULT_RATING,
battlesPlayed: 0 }` — assignment to a fresh key appends it in insertion
order. -/
noncomputable def ensureEntry (t : EloTable) (name : String) : EloTable :=
  if (lookupEntry t name).isNone then
    t ++ [(name, ⟨ELO_DEFAULT_RATING, 0⟩)]
  else t

/-- `eloScores[name].rating` (read).  The default is never reached in the
code paths we model: reads happen only after lines 51–52 ensured presence. -/
noncomputable def ratingOf (t : EloTable) (name : String) : ℝ :=
  ((lookupEntry t name).getD ⟨ELO_DEFAULT_RATING, 0⟩).rating

/-- `eloScores[name].battlesPlayed` (read), same presence remark. -/
noncomputable def gamesOf (t : EloTable) (name : String) : Nat :=
  ((lookupEntry t name).getD ⟨ELO_DEFAULT_RATING, 0⟩).battlesPlayed

/-- Lines 57–58: `expected = 1 / (1 + Math.pow(10, (ratingOther - ratingSelf) / 400))`. -/
noncomputable def expectedScore (ratingSelf ratingOther : ℝ) : ℝ :=
  1 / (1 + (10 : ℝ) ^ ((ratingOther - ratingSelf) / 400))

/-- Lines 60–71: the `(scoreA, scoreB)` pair determined by `battle_outcome`
(template literals `` `${model}_wins` `` are string appends). -/
noncomputable def actualScores (battle : Battle) : ℝ × ℝ :=
  if battle.battle_outcome = battle.model_A_info.name ++ "_wins" then (1, 0)
  else if battle.battle_outcome = battle.model_B_info.name ++ "_wins" then (0, 1)
  else (1/2, 1/2)

/-- Lines 46–78: the body of the `battles.forEach` loop, one battle's
update of `eloScores`. The reads of lines 54–58 happen before the writes
of lines 73–77, in source order. -/
noncomputable def applyBattle (eloScores : EloTable) (battle : Battle) : EloTable :=
  let modelA := battle.model_A_info.name
  let modelB := battle.model_B_info.name
  -- lines 51–52: defensive re-initialization
  let t1 := ensureEntry (ensureEntry eloScores modelA) modelB
  -- lines 54–55
  let ratingA := ratingOf t1 modelA
  let ratingB := ratingOf t1 modelB
  -- lines 57–58
  let expectedA := expectedScore ratingA ratingB
  let expectedB := expectedScore ratingB ratingA
  -- lines 60–71
  let scores := actualScores battle
  -- lines 73–74: rating += K * (score - expected)
  let t2 := updateEntry t1 modelA
    (fun e => ⟨e.rating + ELO_K_FACTOR * (scores.1 - expectedA), e.battlesPlayed⟩)
  let t3 := updateEntry t2 modelB
    (fun e => ⟨e.rating + ELO_K_FACTOR * (scores.2 - expectedB), e.battlesPlayed⟩)
  -- lines 76–77: battlesPlayed++
  let t4 := updateEntry t3 modelA (fun e => ⟨e.rating, e.battlesPlayed + 1⟩)
  updateEntry t4 modelB (fun e => ⟨e.rating, e.battlesPlayed + 1⟩)

/-- `Set.add` (lines 35–36): insertion-ordered set of names, first
occurrence kept. -/
def insertName (names : List String) (n : String) : List String :=
  if n ∈ names then names else names ++ [n]

/-- Lines 31–37: scan all battles (in input order) collecting the distinct
participant names. -/
def modelNamesList (battles : List Battle) : List String :=
  battles.foldl
    (fun acc b => insertName (insertName acc b.model_A_info.name) b.model_B_info.name)
    []

/-- Lines 39–41: initialize every collected name to
`{ rating: ELO_DEFAULT_RATING, battlesPlayed: 0 }`. -/
noncomputable def initialScores (battles : List Battle) : EloTable :=
  (modelNamesList battles).map (fun n => (n, ⟨ELO_DEFAULT_RATING, 0⟩))

/-- The comparator of line 44 orders battles by ascending `timestamp_start`. -/
def battleLE (a b : Battle) : Prop :=
  a.timestamp_start ≤ b.timestamp_start

instance : DecidableRel battleLE := fun a b =>
  inferInstanceAs (Decidable (a.timestamp_start ≤ b.timestamp_start))

instance : IsTotal Battle battleLE :=
  ⟨fun a b => le_total a.timestamp_start b.timestamp_start⟩

instance : IsTrans Battle battleLE :=
  ⟨fun _ _ _ h h' => le_trans h h'⟩

/-- Line 44: `battles.sort((a, b) => new Date(a.timestamp_start) - new
Date(b.timestamp_start))`.  `Array.prototype.sort` is a stable sort; a
stable ascending sort of a list is unique, and `List.insertionSort` with a
total preorder is one. -/
def sortBattles (battles : List Battle) : List Battle :=
  battles.insertionSort battleLE

/-- Lines 29–80: `calculateElo`.  The name-collection scan (lines 31–41)
runs over the array as supplied; the processing loop (lines 46–78) runs
over the array sorted by line 44. -/
noncomputable def calculateElo (battles : List Battle) : EloTable :=
  (sortBattles battles).foldl applyBattle (initialScores battles)

/-- The caller's array when `calculateElo` returns: line 44 sorts the
caller-supplied array **in place** and nothing restores the order. -/
def calculateEloArrayAfter (battles : List Battle) : List Battle :=
  sortBattles battles

/-- The comparator of line 110 orders battles by descending
`timestamp_start`. -/
def battleGE (a b : Battle) : Prop :=
  b.timestamp_start ≤ a.timestamp_start

instance : DecidableRel battleGE := fun a b =>
  inferInstanceAs (Decidable (b.timestamp_start ≤ a.timestamp_start))

/-- Line 110: `const sortedBattles = [...battles].sort((a, b) => new
Date(b.timestamp_start) - new Date(a.timestamp_start))` — the descending
timeline order, computed from a spread copy. -/
def sortedBattlesForDisplay (battles : List Battle) : List Battle :=
  battles.insertionSort battleGE

/-- The caller's array when `displayBattleList` returns: line 110 sorts a
spread copy `[...battles]`, so the caller's array is untouched. -/
def displayBattleListArrayAfter (battles : List Battle) : List Battle :=
  battles

/-- Line 139: `battles.find(b => b.battle_id === battleId)`; `undefined`
(battle not found, line 140–143) is `none`. -/
def findBattle (battles : List Battle) (battleId : String) : Option Battle :=
  battles.find? (fun b => b.battle_id == battleId)

/-- Total `battlesPlayed` over the entries of an Elo table. -/
def sumGames (t : EloTable) : Nat :=
  (t.map (fun kv => kv.2.battlesPlayed)).sum

/-- Total `rating` over the entries of an Elo table. -/
noncomputable def sumRatings (t : EloTable) : ℝ :=
  (t.map (fun kv => kv.2.rating)).sum

/-! ## Association-table lemmas -/

theorem lookup_updateEntry (t : EloTable) (n : String) (f : EloEntry → EloEntry)
    (m : String) :
    lookupEntry (updateEntry t n f) m
      = if m = n then (lookupEntry t m).map f else lookupEntry t m := by
  induction t with
  | nil => simp [updateEntry, lookupEntry]
  | cons kv rest ih =>
    obtain ⟨k, v⟩ := kv
    by_cases hk : k = n
    · subst hk
      by_cases hm : m = k
      · subst hm
        simp [updateEntry, lookupEntry]
      · simp [updateEntry, lookupEntry, Ne.symm hm, hm]
    · by_cases hm : m = k
      · subst hm
        simp [updateEntry, lookupEntry, hk, Ne.symm hk]
      · simp [updateEntry, lookupEntry, hk, Ne.symm hm, ih]

theorem lookup_append_of_eq_none {t₁ : EloTable} {m : String}
    (h : lookupEntry t₁ m = none) (t₂ : EloTable) :
    lookupEntry (t₁ ++ t₂) m = lookupEntry t₂ m := by
  induction t₁ with
  | nil => simp
  | cons kv rest ih =>
    obtain ⟨k, v⟩ := kv
    by_cases hk : k = m
    · subst hk
      simp [lookupEntry] at h
    · simp only [lookupEntry, hk, if_false, List.cons_append] at h ⊢
      exact ih h

theorem lookup_append_of_eq_some {t₁ : EloTable} {m : String} {e : EloEntry}
    (h : lookupEntry t₁ m = some e) (t₂ : EloTable) :
    lookupEntry (t₁ ++ t₂) m = some e := by
  induction t₁ with
  | nil => simp [lookupEntry] at h
  | cons kv rest ih =>
    obtain ⟨k, v⟩ := kv
    by_cases hk : k = m
    · subst hk
      simp only [lookupEntry, if_pos rfl, List.cons_append] at h ⊢
      exact h
    · simp only [lookupEntry, hk, if_false, List.cons_append] at h ⊢
      exact ih h

theorem lookup_ensureEntry (t : EloTable) (n m : String) :
    lookupEntry (ensureEntry t n) m
      = if m = n then some ((lookupEntry t n).getD ⟨ELO_DEFAULT_RATING, 0⟩)
        else lookupEntry t m := by
  unfold ensureEntry
  cases h : lookupEntry t n with
  | none =>
    simp only [h, Option.isNone_none, if_true, Option.getD_none]
    by_cases hm : m = n
    · subst hm
      rw [lookup_append_of_eq_none h]
      simp [lookupEntry]
    · cases h' : lookupEntry t m with
      | none =>
        rw [lookup_append_of_eq_none h']
        simp [lookupEntry, Ne.symm hm, hm]
      | some e =>
        rw [lookup_append_of_eq_some h']
        simp [hm]
  | some e =>
    simp only [h, Option.isNone_some, if_false, Option.getD_some]
    by_cases hm : m = n
    · subst hm; simp [h]
    · simp [hm]

theorem ensureEntry_of_isSome {t : EloTable} {n : String}
    (h : (lookupEntry t n).isSome) : ensureEntry t n = t := by
  unfold ensureEntry
  cases hl : lookupEntry t n with
  | none => rw [hl] at h; simp at h
  | some e => simp

theorem isSome_lookup_updateEntry (t : EloTable) (n : String)
    (f : EloEntry → EloEntry) (m : String) :
    (lookupEntry (updateEntry t n f) m).isSome = (lookupEntry t m).isSome := by
  rw [lookup_updateEntry]
  by_cases hm : m = n <;> simp [hm]

theorem isSome_lookup_ensureEntry_self (t : EloTable) (n : String) :
    (lookupEntry (ensureEntry t n) n).isSome := by
  rw [lookup_ensureEntry]
  simp

theorem isSome_lookup_ensureEntry_of_isSome {t : EloTable} {m : String}
    (h : (lookupEntry t m).isSome) (n : String) :
    (lookupEntry (ensureEntry t n) m).isSome := by
  rw [lookup_ensureEntry]
  by_cases hm : m = n <;> simp [hm, h]

theorem keys_updateEntry (t : EloTable) (n : String) (f : EloEntry → EloEntry) :
    (updateEntry t n f).map Prod.fst = t.map Prod.fst := by
  induction t with
  | nil => simp [updateEntry]
  | cons kv rest ih =>
    obtain ⟨k, v⟩ := kv
    by_cases hk : k = n <;> simp [updateEntry, hk, ih]

theorem sumGames_updateEntry {f : EloEntry → EloEntry} {d : Nat}
    (hf : ∀ e, (f e).battlesPlayed = e.battlesPlayed + d)
    (t : EloTable) (n : String) :
    sumGames (updateEntry t n f)
      = sumGames t + (if (lookupEntry t n).isSome then d else 0) := by
  induction t with
  | nil => simp [updateEntry, sumGames, lookupEntry]
  | cons kv rest ih =>
    obtain ⟨k, v⟩ := kv
    by_cases hk : k = n
    · subst hk
      simp [updateEntry, sumGames, lookupEntry, hf]
      omega
    · simp only [updateEntry, hk, if_false, sumGames, List.map_cons, List.sum_cons,
        lookupEntry, Ne.symm hk] at ih ⊢
      rw [ih]
      ring

theorem sumRatings_updateEntry {f : EloEntry → EloEntry} {d : ℝ}
    (hf : ∀ e, (f e).rating = e.rating + d)
    (t : EloTable) (n : String) :
    sumRatings (updateEntry t n f)
      = sumRatings t + (if (lookupEntry t n).isSome then d else 0) := by
  induction t with
  | nil => simp [updateEntry, sumRatings, lookupEntry]
  | cons kv rest ih =>
    obtain ⟨k, v⟩ := kv
    by_cases hk : k = n
    · subst hk
      simp [updateEntry, sumRatings, lookupEntry, hf]
      ring
    · simp only [updateEntry, hk, if_false, sumRatings, List.map_cons, List.sum_cons,
        lookupEntry, Ne.symm hk] at ih ⊢
      rw [ih]
      ring

theorem sumGames_ensureEntry (t : EloTable) (n : String) :
    sumGames (ensureEntry t n) = sumGames t := by
  unfold ensureEntry
  cases h : lookupEntry t n with
  | none => simp [sumGames]
  | some e => simp

/-! ## Pairing identities -/

theorem expectedScore_add_expectedScore (x y : ℝ) :
    expectedScore x y + expectedScore y x = 1 := by
  unfold expectedScore
  have hpow : (10 : ℝ) ^ ((x - y) / 400) = ((10 : ℝ) ^ ((y - x) / 400))⁻¹ := by
    rw [show (x - y) / 400 = -((y - x) / 400) by ring, Real.rpow_neg (by norm_num)]
  have hpos : (0 : ℝ) < (10 : ℝ) ^ ((y - x) / 400) :=
    Real.rpow_pos_of_pos (by norm_num) _
  rw [hpow]
  have h1 : (1 : ℝ) + (10 : ℝ) ^ ((y - x) / 400) ≠ 0 := by positivity
  field_simp
  ring

theorem actualScores_fst_add_snd (b : Battle) :
    (actualScores b).1 + (actualScores b).2 = 1 := by
  unfold actualScores
  split_ifs <;> norm_num

/-! ## `applyBattle` lemmas -/

theorem lookup_applyBattle {t : EloTable} {b : Battle} {ea eb : EloEntry}
    (hA : lookupEntry t b.model_A_info.name = some ea)
    (hB : lookupEntry t b.model_B_info.name = some eb)
    (hAB : b.model_A_info.name ≠ b.model_B_info.name) (m : String) :
    lookupEntry (applyBattle t b) m
      = if m = b.model_A_info.name then
          some ⟨ea.rating
                  + ELO_K_FACTOR * ((actualScores b).1 - expectedScore ea.rating eb.rating),
                ea.battlesPlayed + 1⟩
        else if m = b.model_B_info.name then
          some ⟨eb.rating
                  + ELO_K_FACTOR * ((actualScores b).2 - expectedScore eb.rating ea.rating),
                eb.battlesPlayed + 1⟩
        else lookupEntry t m := by
  have hA' : (lookupEntry t b.model_A_info.name).isSome := by simp [hA]
  have hB' : (lookupEntry t b.model_B_info.name).isSome := by simp [hB]
  simp only [applyBattle]
  have ht1 : ensureEntry (ensureEntry t b.model_A_info.name) b.model_B_info.name = t := by
    rw [ensureEntry_of_isSome hA', ensureEntry_of_isSome hB']
  rw [ht1]
  have hrA : ratingOf t b.model_A_info.name = ea.rating := by simp [ratingOf, hA]
  have hrB : ratingOf t b.model_B_info.name = eb.rating := by simp [ratingOf, hB]
  rw [hrA, hrB]
  simp only [lookup_updateEntry]
  by_cases hmA : m = b.model_A_info.name
  · subst hmA
    simp [hAB, hA]
  · by_cases hmB : m = b.model_B_info.name
    · subst hmB
      simp [hmA, hB, Ne.symm hAB]
    · simp [hmA, hmB]

theorem isSome_lookup_applyBattle {t : EloTable} {m : String}
    (h : (lookupEntry t m).isSome) (b : Battle) :
    (lookupEntry (applyBattle t b) m).isSome := by
  simp only [applyBattle]
  simp only [isSome_lookup_updateEntry]
  exact isSome_lookup_ensureEntry_of_isSome (isSome_lookup_ensureEntry_of_isSome h _) _

theorem sumGames_updateEntry_ratingAdd (t : EloTable) (n : String) (d : ℝ) :
    sumGames (updateEntry t n (fun e => ⟨e.rating + d, e.battlesPlayed⟩)) = sumGames t := by
  rw [@sumGames_updateEntry (fun e => ⟨e.rating + d, e.battlesPlayed⟩) 0 (fun _ => rfl)]
  simp

theorem sumGames_updateEntry_incr (t : EloTable) (n : String) :
    sumGames (updateEntry t n (fun e => ⟨e.rating, e.battlesPlayed + 1⟩))
      = sumGames t + (if (lookupEntry t n).isSome then 1 else 0) :=
  @sumGames_updateEntry (fun e => ⟨e.rating, e.battlesPlayed + 1⟩) 1 (fun _ => rfl) t n

theorem sumRatings_updateEntry_ratingAdd (t : EloTable) (n : String) (d : ℝ) :
    sumRatings (updateEntry t n (fun e => ⟨e.rating + d, e.battlesPlayed⟩))
      = sumRatings t + (if (lookupEntry t n).isSome then d else 0) :=
  @sumRatings_updateEntry (fun e => ⟨e.rating + d, e.battlesPlayed⟩) d (fun _ => rfl) t n

theorem sumRatings_updateEntry_incr (t : EloTable) (n : String) :
    sumRatings (updateEntry t n (fun e => ⟨e.rating, e.battlesPlayed + 1⟩))
      = sumRatings t := by
  rw [@sumRatings_updateEntry (fun e => ⟨e.rating, e.battlesPlayed + 1⟩) 0
    (fun _ => by simp)]
  simp

theorem sumGames_applyBattle (t : EloTable) (b : Battle) :
    sumGames (applyBattle t b) = sumGames t + 2 := by
  simp only [applyBattle]
  have hA1 : (lookupEntry (ensureEntry (ensureEntry t b.model_A_info.name)
      b.model_B_info.name) b.model_A_info.name).isSome :=
    isSome_lookup_ensureEntry_of_isSome (isSome_lookup_ensureEntry_self t _) _
  have hB1 : (lookupEntry (ensureEntry (ensureEntry t b.model_A_info.name)
      b.model_B_info.name) b.model_B_info.name).isSome :=
    isSome_lookup_ensureEntry_self _ _
  rw [sumGames_updateEntry_incr, sumGames_updateEntry_incr,
    sumGames_updateEntry_ratingAdd, sumGames_updateEntry_ratingAdd,
    sumGames_ensureEntry, sumGames_ensureEntry]
  simp only [isSome_lookup_updateEntry, hA1, hB1, if_true]

theorem sumRatings_applyBattle {t : EloTable} {b : Battle}
    (hA : (lookupEntry t b.model_A_info.name).isSome)
    (hB : (lookupEntry t b.model_B_info.name).isSome) :
    sumRatings (applyBattle t b) = sumRatings t := by
  simp only [applyBattle]
  have ht1 : ensureEntry (ensureEntry t b.model_A_info.name) b.model_B_info.name = t := by
    rw [ensureEntry_of_isSome hA, ensureEntry_of_isSome hB]
  rw [ht1]
  rw [sumRatings_updateEntry_incr, sumRatings_updateEntry_incr,
    sumRatings_updateEntry_ratingAdd, sumRatings_updateEntry_ratingAdd]
  simp only [isSome_lookup_updateEntry, hA, hB, if_true]
  have hE := expectedScore_add_expectedScore
    (ratingOf t b.model_A_info.name) (ratingOf t b.model_B_info.name)
  have hS := actualScores_fst_add_snd b
  linear_combination (ELO_K_FACTOR : ℝ) * (hS - hE)

/-! ## Congruence: `applyBattle` only observes a table through `lookupEntry` -/

theorem lookup_updateEntry_congr {t₁ t₂ : EloTable}
    (h : ∀ x, lookupEntry t₁ x = lookupEntry t₂ x) (n : String)
    (f : EloEntry → EloEntry) (m : String) :
    lookupEntry (updateEntry t₁ n f) m = lookupEntry (updateEntry t₂ n f) m := by
  simp [lookup_updateEntry, h]

theorem lookup_ensureEntry_congr {t₁ t₂ : EloTable}
    (h : ∀ x, lookupEntry t₁ x = lookupEntry t₂ x) (n m : String) :
    lookupEntry (ensureEntry t₁ n) m = lookupEntry (ensureEntry t₂ n) m := by
  simp [lookup_ensureEntry, h]

theorem lookup_applyBattle_congr {t₁ t₂ : EloTable}
    (h : ∀ x, lookupEntry t₁ x = lookupEntry t₂ x) (b : Battle) (m : String) :
    lookupEntry (applyBattle t₁ b) m = lookupEntry (applyBattle t₂ b) m := by
  simp only [applyBattle]
  have h1 : ∀ x,
      lookupEntry (ensureEntry (ensureEntry t₁ b.model_A_info.name) b.model_B_info.name) x
        = lookupEntry (ensureEntry (ensureEntry t₂ b.model_A_info.name) b.model_B_info.name) x :=
    fun x => lookup_ensureEntry_congr (fun y => lookup_ensureEntry_congr h _ y) _ x
  have hrA : ratingOf (ensureEntry (ensureEntry t₁ b.model_A_info.name) b.model_B_info.name)
        b.model_A_info.name
      = ratingOf (ensureEntry (ensureEntry t₂ b.model_A_info.name) b.model_B_info.name)
        b.model_A_info.name := by
    simp [ratingOf, h1]
  have hrB : ratingOf (ensureEntry (ensureEntry t₁ b.model_A_info.name) b.model_B_info.name)
        b.model_B_info.name
      = ratingOf (ensureEntry (ensureEntry t₂ b.model_A_info.name) b.model_B_info.name)
        b.model_B_info.name := by
    simp [ratingOf, h1]
  rw [hrA, hrB]
  exact lookup_updateEntry_congr
    (fun x => lookup_updateEntry_congr
      (fun y => lookup_updateEntry_congr
        (fun z => lookup_updateEntry_congr h1 _ _ z) _ _ y) _ _ x) _ _ m

theorem lookup_foldl_applyBattle_congr {t₁ t₂ : EloTable}
    (h : ∀ x, lookupEntry t₁ x = lookupEntry t₂ x) (L : List Battle) (m : String) :
    lookupEntry (L.foldl applyBattle t₁) m = lookupEntry (L.foldl applyBattle t₂) m := by
  induction L generalizing t₁ t₂ with
  | nil => exact h m
  | cons b L ih =>
    simp only [List.foldl_cons]
    exact ih (fun x => lookup_applyBattle_congr h b x)

/-! ## Name collection (lines 31–41) -/

theorem mem_insertName {names : List String} {n x : String} :
    x ∈ insertName names n ↔ x ∈ names ∨ x = n := by
  unfold insertName
  split_ifs with h
  · exact ⟨Or.inl, fun hx => hx.elim id (fun e => e ▸ h)⟩
  · simp

theorem nodup_insertName {names : List String} (h : names.Nodup) (n : String) :
    (insertName names n).Nodup := by
  unfold insertName
  split_ifs with hm
  · exact h
  · simp [List.nodup_append, h, hm]

theorem mem_foldl_insertName (battles : List Battle) (acc : List String) (x : String) :
    x ∈ battles.foldl
        (fun acc b => insertName (insertName acc b.model_A_info.name) b.model_B_info.name) acc
      ↔ x ∈ acc ∨ ∃ b ∈ battles, x = b.model_A_info.name ∨ x = b.model_B_info.name := by
  induction battles generalizing acc with
  | nil => simp
  | cons b bs ih =>
    simp only [List.foldl_cons, ih, mem_insertName, List.mem_cons]
    constructor
    · rintro (((hx | hx) | hx) | ⟨c, hc, hx⟩)
      · exact Or.inl hx
      · exact Or.inr ⟨b, Or.inl rfl, Or.inl hx⟩
      · exact Or.inr ⟨b, Or.inl rfl, Or.inr hx⟩
      · exact Or.inr ⟨c, Or.inr hc, hx⟩
    · rintro (hx | ⟨c, (rfl | hc), hx⟩)
      · exact Or.inl (Or.inl (Or.inl hx))
      · rcases hx with hx | hx
        · exact Or.inl (Or.inl (Or.inr hx))
        · exact Or.inl (Or.inr hx)
      · exact Or.inr ⟨c, hc, hx⟩

theorem mem_modelNamesList (battles : List Battle) (x : String) :
    x ∈ modelNamesList battles
      ↔ ∃ b ∈ battles, x = b.model_A_info.name ∨ x = b.model_B_info.name := by
  unfold modelNamesList
  rw [mem_foldl_insertName]
  simp

theorem nodup_foldl_insertName (battles : List Battle) {acc : List String}
    (h : acc.Nodup) :
    (battles.foldl
        (fun acc b => insertName (insertName acc b.model_A_info.name) b.model_B_info.name)
        acc).Nodup := by
  induction battles generalizing acc with
  | nil => exact h
  | cons b bs ih =>
    simp only [List.foldl_cons]
    exact ih (nodup_insertName (nodup_insertName h _) _)

theorem nodup_modelNamesList (battles : List Battle) :
    (modelNamesList battles).Nodup :=
  nodup_foldl_insertName battles List.nodup_nil

theorem lookup_initialScores (battles : List Battle) (m : String) :
    lookupEntry (initialScores battles) m
      = if m ∈ modelNamesList battles then some ⟨ELO_DEFAULT_RATING, 0⟩ else none := by
  unfold initialScores
  generalize modelNamesList battles = names
  induction names with
  | nil => simp [lookupEntry]
  | cons n ns ih =>
    by_cases h : n = m
    · subst h
      simp [lookupEntry]
    · simp only [List.map_cons, lookupEntry, h, if_false, ih, List.mem_cons]
      have : ¬m = n := fun e => h e.symm
      simp [this]

theorem keys_initialScores (battles : List Battle) :
    (initialScores battles).map Prod.fst = modelNamesList battles := by
  unfold initialScores
  simp [Function.comp_def]

theorem initial_presence {l : List Battle} {b : Battle} (hb : b ∈ l) :
    (lookupEntry (initialScores l) b.model_A_info.name).isSome
      ∧ (lookupEntry (initialScores l) b.model_B_info.name).isSome := by
  rw [lookup_initialScores, lookup_initialScores]
  rw [if_pos ((mem_modelNamesList l _).mpr ⟨b, hb, Or.inl rfl⟩),
    if_pos ((mem_modelNamesList l _).mpr ⟨b, hb, Or.inr rfl⟩)]
  simp

/-! ## Sorting (line 44) -/

theorem sortBattles_perm (l : List Battle) : (sortBattles l).Perm l :=
  List.perm_insertionSort battleLE l

theorem sorted_sortBattles (l : List Battle) : (sortBattles l).Sorted battleLE :=
  List.sorted_insertionSort battleLE l

theorem sortBattles_idem (l : List Battle) :
    sortBattles (sortBattles l) = sortBattles l :=
  (sorted_sortBattles l).insertionSort_eq

theorem filter_orderedInsert_ts (a : Battle) (m : List Battle) (ts : Int) :
    (List.orderedInsert battleLE a m).filter (fun x => decide (x.timestamp_start = ts))
      = if a.timestamp_start = ts
        then a :: m.filter (fun x => decide (x.timestamp_start = ts))
        else m.filter (fun x => decide (x.timestamp_start = ts)) := by
  induction m with
  | nil =>
    by_cases h : a.timestamp_start = ts <;>
      simp [List.orderedInsert, List.filter, h]
  | cons b l ih =>
    simp only [List.orderedInsert]
    by_cases hr : battleLE a b
    · rw [if_pos hr]
      by_cases ha : a.timestamp_start = ts
      · simp [List.filter_cons, ha]
      · simp [List.filter_cons, ha]
    · rw [if_neg hr]
      have hb : b.timestamp_start < a.timestamp_start := by
        simpa [battleLE] using hr
      by_cases ha : a.timestamp_start = ts
      · have hbne : ¬b.timestamp_start = ts := by omega
        simp [List.filter_cons, ha, hbne, ih]
      · simp [List.filter_cons, ha, ih]

theorem filter_sortBattles (l : List Battle) (ts : Int) :
    (sortBattles l).filter (fun x => decide (x.timestamp_start = ts))
      = l.filter (fun x => decide (x.timestamp_start = ts)) := by
  induction l with
  | nil => rfl
  | cons a l ih =>
    show (List.orderedInsert battleLE a (sortBattles l)).filter _ = _
    rw [filter_orderedInsert_ts]
    by_cases ha : a.timestamp_start = ts
    · simp [List.filter_cons, ha, ih]
    · simp [List.filter_cons, ha, ih]

theorem eq_of_perm_of_sorted_of_strict :
    ∀ {l s : List Battle}, s.Perm l → s.Sorted battleLE →
      l.Pairwise (fun a b => a.timestamp_start < b.timestamp_start) → s = l := by
  intro l
  induction l with
  | nil =>
    intro s hp _ _
    exact hp.eq_nil
  | cons a l ih =>
    intro s hp hs hpair
    cases s with
    | nil => exact absurd hp.symm.eq_nil (by simp)
    | cons b s' =>
      by_cases hba : b = a
      · subst hba
        rw [ih hp.cons_inv hs.of_cons hpair.of_cons]
      · exfalso
        have hbmem : b ∈ a :: l := hp.subset (List.mem_cons_self b s')
        have hbl : b ∈ l := (List.mem_cons.mp hbmem).resolve_left hba
        have hab : a.timestamp_start < b.timestamp_start :=
          (List.pairwise_cons.mp hpair).1 b hbl
        have hamem : a ∈ b :: s' := hp.symm.subset (List.mem_cons_self a l)
        have ha' : a ∈ s' :=
          (List.mem_cons.mp hamem).resolve_left (fun e => hba e.symm)
        have hba' : battleLE b a := List.rel_of_sorted_cons hs a ha'
        simp only [battleLE] at hba'
        omega

theorem sortBattles_eq_of_perm_of_strict {l l' : List Battle} (hperm : l'.Perm l)
    (h : l.Pairwise (fun a b => a.timestamp_start < b.timestamp_start)) :
    sortBattles l' = l :=
  eq_of_perm_of_sorted_of_strict ((sortBattles_perm l').trans hperm)
    (sorted_sortBattles l') h

/-! ## Folding the battles -/

theorem sumGames_foldl (L : List Battle) (t : EloTable) :
    sumGames (L.foldl applyBattle t) = sumGames t + 2 * L.length := by
  induction L generalizing t with
  | nil => simp
  | cons b L ih =>
    simp only [List.foldl_cons, List.length_cons]
    rw [ih, sumGames_applyBattle]
    ring

theorem sumRatings_foldl {L : List Battle} :
    ∀ {t : EloTable},
      (∀ b ∈ L, (lookupEntry t b.model_A_info.name).isSome
        ∧ (lookupEntry t b.model_B_info.name).isSome) →
      sumRatings (L.foldl applyBattle t) = sumRatings t := by
  induction L with
  | nil => intro t _; rfl
  | cons b L ih =>
    intro t h
    simp only [List.foldl_cons]
    rw [ih (fun c hc => ⟨isSome_lookup_applyBattle (h c (List.mem_cons_of_mem b hc)).1 b,
      isSome_lookup_applyBattle (h c (List.mem_cons_of_mem b hc)).2 b⟩)]
    exact sumRatings_applyBattle (h b (List.mem_cons_self b L)).1
      (h b (List.mem_cons_self b L)).2

theorem keys_applyBattle {t : EloTable} {b : Battle}
    (hA : (lookupEntry t b.model_A_info.name).isSome)
    (hB : (lookupEntry t b.model_B_info.name).isSome) :
    (applyBattle t b).map Prod.fst = t.map Prod.fst := by
  simp only [applyBattle]
  rw [ensureEntry_of_isSome hA, ensureEntry_of_isSome hB]
  simp [keys_updateEntry]

theorem keys_foldl {L : List Battle} :
    ∀ {t : EloTable},
      (∀ b ∈ L, (lookupEntry t b.model_A_info.name).isSome
        ∧ (lookupEntry t b.model_B_info.name).isSome) →
      (L.foldl applyBattle t).map Prod.fst = t.map Prod.fst := by
  induction L with
  | nil => intro t _; rfl
  | cons b L ih =>
    intro t h
    simp only [List.foldl_cons]
    rw [ih (fun c hc => ⟨isSome_lookup_applyBattle (h c (List.mem_cons_of_mem b hc)).1 b,
      isSome_lookup_applyBattle (h c (List.mem_cons_of_mem b hc)).2 b⟩)]
    exact keys_applyBattle (h b (List.mem_cons_self b L)).1 (h b (List.mem_cons_self b L)).2

theorem lookup_initialScores_congr {l l' : List Battle} (hperm : l'.Perm l) (m : String) :
    lookupEntry (initialScores l') m = lookupEntry (initialScores l) m := by
  rw [lookup_initialScores, lookup_initialScores]
  have hmem : m ∈ modelNamesList l' ↔ m ∈ modelNamesList l := by
    rw [mem_modelNamesList, mem_modelNamesList]
    exact ⟨fun ⟨b, hb, hx⟩ => ⟨b, hperm.subset hb, hx⟩,
           fun ⟨b, hb, hx⟩ => ⟨b, hperm.symm.subset hb, hx⟩⟩
  by_cases h : m ∈ modelNamesList l <;> simp [h, hmem]

theorem sumRatings_initialScores (l : List Battle) :
    sumRatings (initialScores l) = ELO_DEFAULT_RATING * (modelNamesList l).length := by
  unfold initialScores sumRatings
  generalize modelNamesList l = names
  induction names with
  | nil => simp
  | cons n ns ih =>
    simp only [List.map_cons, List.sum_cons, List.length_cons, ih]
    push_cast
    ring

theorem presence_in_initial (battles : List Battle) :
    ∀ b ∈ sortBattles battles,
      (lookupEntry (initialScores battles) b.model_A_info.name).isSome
        ∧ (lookupEntry (initialScores battles) b.model_B_info.name).isSome :=
  fun b hb => initial_presence ((sortBattles_perm battles).subset hb)

/-! ## The claims -/

/-- C1: for every battle processed, both participants' expected scores are
computed from the ratings as they stood before either side's update for
that battle (simultaneous update), and each participant's rating changes by
exactly `kFactor * (actualScore - expectedScore)` where
`expected(X) = 1 / (1 + 10^((rating(other) - rating(X)) / 400))`. -/
theorem claim_C1 (t : EloTable) (b : Battle) (ea eb : EloEntry)
    (hA : lookupEntry t b.model_A_info.name = some ea)
    (hB : lookupEntry t b.model_B_info.name = some eb)
    (hAB : b.model_A_info.name ≠ b.model_B_info.name) :
    ratingOf (applyBattle t b) b.model_A_info.name
        = ratingOf t b.model_A_info.name
          + ELO_K_FACTOR * ((actualScores b).1
            - 1 / (1 + (10 : ℝ) ^ ((ratingOf t b.model_B_info.name
                - ratingOf t b.model_A_info.name) / 400)))
      ∧ ratingOf (applyBattle t b) b.model_B_info.name
        = ratingOf t b.model_B_info.name
          + ELO_K_FACTOR * ((actualScores b).2
            - 1 / (1 + (10 : ℝ) ^ ((ratingOf t b.model_A_info.name
                - ratingOf t b.model_B_info.name) / 400))) := by
  have hl := lookup_applyBattle hA hB hAB
  constructor
  · rw [ratingOf, hl b.model_A_info.name, if_pos rfl]
    simp [ratingOf, hA, hB, expectedScore]
  · rw [ratingOf, hl b.model_B_info.name, if_neg (fun e => hAB e.symm), if_pos rfl]
    simp [ratingOf, hA, hB, expectedScore]

theorem claim_C1_witness :
    ratingOf (applyBattle [("A", (⟨1500, 0⟩ : EloEntry)), ("B", ⟨1400, 3⟩)]
        ⟨"w1", 5, "A_wins", ⟨"A"⟩, ⟨"B"⟩⟩) "A"
        = ratingOf [("A", (⟨1500, 0⟩ : EloEntry)), ("B", ⟨1400, 3⟩)] "A"
          + ELO_K_FACTOR * ((actualScores ⟨"w1", 5, "A_wins", ⟨"A"⟩, ⟨"B"⟩⟩).1
            - 1 / (1 + (10 : ℝ)
              ^ ((ratingOf [("A", (⟨1500, 0⟩ : EloEntry)), ("B", ⟨1400, 3⟩)] "B"
                - ratingOf [("A", (⟨1500, 0⟩ : EloEntry)), ("B", ⟨1400, 3⟩)] "A") / 400)))
      ∧ ratingOf (applyBattle [("A", (⟨1500, 0⟩ : EloEntry)), ("B", ⟨1400, 3⟩)]
        ⟨"w1", 5, "A_wins", ⟨"A"⟩, ⟨"B"⟩⟩) "B"
        = ratingOf [("A", (⟨1500, 0⟩ : EloEntry)), ("B", ⟨1400, 3⟩)] "B"
          + ELO_K_FACTOR * ((actualScores ⟨"w1", 5, "A_wins", ⟨"A"⟩, ⟨"B"⟩⟩).2
            - 1 / (1 + (10 : ℝ)
              ^ ((ratingOf [("A", (⟨1500, 0⟩ : EloEntry)), ("B", ⟨1400, 3⟩)] "A"
                - ratingOf [("A", (⟨1500, 0⟩ : EloEntry)), ("B", ⟨1400, 3⟩)] "B") / 400))) :=
  claim_C1 [("A", ⟨1500, 0⟩), ("B", ⟨1400, 3⟩)] ⟨"w1", 5, "A_wins", ⟨"A"⟩, ⟨"B"⟩⟩
    ⟨1500, 0⟩ ⟨1400, 3⟩ rfl rfl (by decide)

/-- C4: a battle whose outcome matches neither the A-wins tag nor the
B-wins tag is treated as a tie with actual scores (0.5, 0.5); it is not
skipped — both ratings receive the tie update and both `battlesPlayed`
counters are incremented — and no error is raised. -/
theorem claim_C4 (t : EloTable) (b : Battle) (ea eb : EloEntry)
    (hA : lookupEntry t b.model_A_info.name = some ea)
    (hB : lookupEntry t b.model_B_info.name = some eb)
    (hAB : b.model_A_info.name ≠ b.model_B_info.name)
    (hOutA : b.battle_outcome ≠ b.model_A_info.name ++ "_wins")
    (hOutB : b.battle_outcome ≠ b.model_B_info.name ++ "_wins") :
    actualScores b = (1/2, 1/2)
      ∧ ratingOf (applyBattle t b) b.model_A_info.name
        = ratingOf t b.model_A_info.name
          + ELO_K_FACTOR * (1/2 - expectedScore (ratingOf t b.model_A_info.name)
              (ratingOf t b.model_B_info.name))
      ∧ ratingOf (applyBattle t b) b.model_B_info.name
        = ratingOf t b.model_B_info.name
          + ELO_K_FACTOR * (1/2 - expectedScore (ratingOf t b.model_B_info.name)
              (ratingOf t b.model_A_info.name))
      ∧ gamesOf (applyBattle t b) b.model_A_info.name
        = gamesOf t b.model_A_info.name + 1
      ∧ gamesOf (applyBattle t b) b.model_B_info.name
        = gamesOf t b.model_B_info.name + 1 := by
  have hscores : actualScores b = (1/2, 1/2) := by
    unfold actualScores
    rw [if_neg hOutA, if_neg hOutB]
  have hl := lookup_applyBattle hA hB hAB
  refine ⟨hscores, ?_, ?_, ?_, ?_⟩
  · rw [ratingOf, hl b.model_A_info.name, if_pos rfl]
    simp [ratingOf, hA, hB, hscores]
  · rw [ratingOf, hl b.model_B_info.name, if_neg (fun e => hAB e.symm), if_pos rfl]
    simp [ratingOf, hA, hB, hscores]
  · rw [gamesOf, hl b.model_A_info.name, if_pos rfl]
    simp [gamesOf, hA]
  · rw [gamesOf, hl b.model_B_info.name, if_neg (fun e => hAB e.symm), if_pos rfl]
    simp [gamesOf, hB]

theorem claim_C4_witness :
    actualScores ⟨"w2", 7, "draw-ish", ⟨"A"⟩, ⟨"B"⟩⟩ = (1/2, 1/2)
      ∧ ratingOf (applyBattle [("A", (⟨1500, 0⟩ : EloEntry)), ("B", ⟨1400, 3⟩)]
          ⟨"w2", 7, "draw-ish", ⟨"A"⟩, ⟨"B"⟩⟩) "A"
        = ratingOf [("A", (⟨1500, 0⟩ : EloEntry)), ("B", ⟨1400, 3⟩)] "A"
          + ELO_K_FACTOR * (1/2
            - expectedScore (ratingOf [("A", (⟨1500, 0⟩ : EloEntry)), ("B", ⟨1400, 3⟩)] "A")
              (ratingOf [("A", (⟨1500, 0⟩ : EloEntry)), ("B", ⟨1400, 3⟩)] "B"))
      ∧ ratingOf (applyBattle [("A", (⟨1500, 0⟩ : EloEntry)), ("B", ⟨1400, 3⟩)]
          ⟨"w2", 7, "draw-ish", ⟨"A"⟩, ⟨"B"⟩⟩) "B"
        = ratingOf [("A", (⟨1500, 0⟩ : EloEntry)), ("B", ⟨1400, 3⟩)] "B"
          + ELO_K_FACTOR * (1/2
            - expectedScore (ratingOf [("A", (⟨1500, 0⟩ : EloEntry)), ("B", ⟨1400, 3⟩)] "B")
              (ratingOf [("A", (⟨1500, 0⟩ : EloEntry)), ("B", ⟨1400, 3⟩)] "A"))
      ∧ gamesOf (applyBattle [("A", (⟨1500, 0⟩ : EloEntry)), ("B", ⟨1400, 3⟩)]
          ⟨"w2", 7, "draw-ish", ⟨"A"⟩, ⟨"B"⟩⟩) "A"
        = gamesOf [("A", (⟨1500, 0⟩ : EloEntry)), ("B", ⟨1400, 3⟩)] "A" + 1
      ∧ gamesOf (applyBattle [("A", (⟨1500, 0⟩ : EloEntry)), ("B", ⟨1400, 3⟩)]
          ⟨"w2", 7, "draw-ish", ⟨"A"⟩, ⟨"B"⟩⟩) "B"
        = gamesOf [("A", (⟨1500, 0⟩ : EloEntry)), ("B", ⟨1400, 3⟩)] "B" + 1 :=
  claim_C4 [("A", ⟨1500, 0⟩), ("B", ⟨1400, 3⟩)] ⟨"w2", 7, "draw-ish", ⟨"A"⟩, ⟨"B"⟩⟩
    ⟨1500, 0⟩ ⟨1400, 3⟩ rfl rfl (by decide) (by decide) (by decide)

/-- C5: for participants `P1` and `P2` both starting at the default rating
1500 with 0 games played and a single battle with outcome `"P1_wins"` at
the configured K-factor 32, the expected score of each side (rating 1500
versus rating 1500) is 0.5, and the computation returns rating 1516 and 1
game for `P1`, rating 1484 and 1 game for `P2`. -/
theorem claim_C5 :
    expectedScore 1500 1500 = 1/2
      ∧ ELO_K_FACTOR = 32
      ∧ calculateElo [⟨"battle_001", 0, "P1_wins", ⟨"P1"⟩, ⟨"P2"⟩⟩]
        = [("P1", ⟨1516, 1⟩), ("P2", ⟨1484, 1⟩)] := by
  refine ⟨?_, rfl, ?_⟩
  · unfold expectedScore
    norm_num
  · have hinit : initialScores [⟨"battle_001", 0, "P1_wins", ⟨"P1"⟩, ⟨"P2"⟩⟩]
        = [("P1", ⟨1500, 0⟩), ("P2", ⟨1500, 0⟩)] := by
      unfold initialScores
      rw [show modelNamesList [⟨"battle_001", 0, "P1_wins", ⟨"P1"⟩, ⟨"P2"⟩⟩]
        = ["P1", "P2"] from by decide]
      rfl
    unfold calculateElo
    rw [show sortBattles [⟨"battle_001", 0, "P1_wins", ⟨"P1"⟩, ⟨"P2"⟩⟩]
      = [⟨"battle_001", 0, "P1_wins", ⟨"P1"⟩, ⟨"P2"⟩⟩] from by decide, hinit]
    simp only [List.foldl_cons, List.foldl_nil]
    simp [applyBattle, ensureEntry, lookupEntry, updateEntry, ratingOf,
      expectedScore, actualScores, ELO_K_FACTOR, ELO_DEFAULT_RATING]
    norm_num

/-- C6: for every battle collection, the sum of `battlesPlayed` over all
entries of the returned mapping is exactly twice the number of battles. -/
theorem claim_C6 (battles : List Battle) :
    sumGames (calculateElo battles) = 2 * battles.length := by
  unfold calculateElo
  rw [sumGames_foldl]
  have h0 : sumGames (initialScores battles) = 0 := by
    unfold initialScores sumGames
    generalize modelNamesList battles = names
    induction names with
    | nil => simp
    | cons n ns ih =>
      rw [List.map_cons, List.map_cons, List.sum_cons, ih]
  rw [h0, (sortBattles_perm battles).length_eq]
  omega

/-- C2: the processing order is a stable ascending sort by `startTime`
(battles with equal start timestamps keep their relative input order, here
stated as: the sort leaves every fixed-timestamp fibre of the collection
unchanged), and for an input collection that is a permutation of a list
with strictly ascending timestamps, the computed mapping coincides with
folding the per-battle update over that list in timestamp order. -/
theorem claim_C2 :
    (∀ l : List Battle, (sortBattles l).Sorted battleLE ∧ (sortBattles l).Perm l)
      ∧ (∀ (l : List Battle) (ts : Int),
          (sortBattles l).filter (fun b => decide (b.timestamp_start = ts))
            = l.filter (fun b => decide (b.timestamp_start = ts)))
      ∧ ∀ (l l' : List Battle),
          l'.Perm l →
          l.Pairwise (fun a b => a.timestamp_start < b.timestamp_start) →
          ∀ name, lookupEntry (calculateElo l') name
            = lookupEntry (List.foldl applyBattle (initialScores l) l) name := by
  refine ⟨fun l => ⟨sorted_sortBattles l, sortBattles_perm l⟩, filter_sortBattles, ?_⟩
  intro l l' hperm hstrict name
  unfold calculateElo
  rw [sortBattles_eq_of_perm_of_strict hperm hstrict]
  exact lookup_foldl_applyBattle_congr (fun x => lookup_initialScores_congr hperm x) l name

theorem claim_C2_witness :
    lookupEntry (calculateElo
        [⟨"x2", 2, "B_wins", ⟨"A"⟩, ⟨"B"⟩⟩, ⟨"x1", 1, "A_wins", ⟨"A"⟩, ⟨"B"⟩⟩]) "A"
      = lookupEntry (List.foldl applyBattle
          (initialScores [⟨"x1", 1, "A_wins", ⟨"A"⟩, ⟨"B"⟩⟩, ⟨"x2", 2, "B_wins", ⟨"A"⟩, ⟨"B"⟩⟩])
          [⟨"x1", 1, "A_wins", ⟨"A"⟩, ⟨"B"⟩⟩, ⟨"x2", 2, "B_wins", ⟨"A"⟩, ⟨"B"⟩⟩]) "A" :=
  claim_C2.2.2 [⟨"x1", 1, "A_wins", ⟨"A"⟩, ⟨"B"⟩⟩, ⟨"x2", 2, "B_wins", ⟨"A"⟩, ⟨"B"⟩⟩]
    [⟨"x2", 2, "B_wins", ⟨"A"⟩, ⟨"B"⟩⟩, ⟨"x1", 1, "A_wins", ⟨"A"⟩, ⟨"B"⟩⟩]
    (by decide) (by decide) "A"

/-- C3 (counterexample): the rating computation does NOT leave the
caller's collection order unchanged — line 44 sorts the caller-supplied
array in place, so after `calculateElo` a collection supplied in
descending timestamp order has been reordered. -/
theorem claim_C3_counterexample :
    calculateEloArrayAfter
        [⟨"c2", 2, "tie", ⟨"A"⟩, ⟨"B"⟩⟩, ⟨"c1", 1, "tie", ⟨"A"⟩, ⟨"B"⟩⟩]
      ≠ [⟨"c2", 2, "tie", ⟨"A"⟩, ⟨"B"⟩⟩, ⟨"c1", 1, "tie", ⟨"A"⟩, ⟨"B"⟩⟩] := by
  decide

/-- C3 (amended): the core never mutates an individual battle record — the
rating engine's in-place sort only permutes the caller's array (every
record present afterwards is a record supplied, with unchanged fields) —
and the timeline's descending sort operates on a spread copy, leaving the
caller's array untouched; so only the rating engine's ascending sort, and
not the timeline sort, mutates the caller-owned array. -/
theorem claim_C3_amended (battles : List Battle) :
    (calculateEloArrayAfter battles).Perm battles
      ∧ displayBattleListArrayAfter battles = battles :=
  ⟨sortBattles_perm battles, rfl⟩

/-- C7: the update is not commutative in processing order — for the
concrete pair of battles "A beats B" / "B beats A" at distinct
timestamps, swapping the two relative timestamps while keeping outcomes
fixed changes A's final rating. -/
theorem claim_C7 :
    ratingOf (calculateElo
        [⟨"d1", 1, "A_wins", ⟨"A"⟩, ⟨"B"⟩⟩, ⟨"d2", 2, "B_wins", ⟨"A"⟩, ⟨"B"⟩⟩]) "A"
      ≠ ratingOf (calculateElo
        [⟨"d1", 2, "A_wins", ⟨"A"⟩, ⟨"B"⟩⟩, ⟨"d2", 1, "B_wins", ⟨"A"⟩, ⟨"B"⟩⟩]) "A" := by
  have hstep1 : applyBattle [("A", ⟨1500, 0⟩), ("B", ⟨1500, 0⟩)]
      ⟨"d1", 1, "A_wins", ⟨"A"⟩, ⟨"B"⟩⟩ = [("A", ⟨1516, 1⟩), ("B", ⟨1484, 1⟩)] := by
    simp [applyBattle, ensureEntry, lookupEntry, updateEntry, ratingOf,
      expectedScore, actualScores, ELO_K_FACTOR, ELO_DEFAULT_RATING]
    norm_num
  have hstep2 : applyBattle [("A", ⟨1516, 1⟩), ("B", ⟨1484, 1⟩)]
      ⟨"d2", 2, "B_wins", ⟨"A"⟩, ⟨"B"⟩⟩
      = [("A", ⟨1516 - 32 / (1 + (10:ℝ) ^ (-(2:ℝ)/25)), 2⟩),
         ("B", ⟨1484 + 32 * (1 - 1 / (1 + (10:ℝ) ^ ((2:ℝ)/25))), 2⟩)] := by
    simp [applyBattle, ensureEntry, lookupEntry, updateEntry, ratingOf,
      expectedScore, actualScores, ELO_K_FACTOR, ELO_DEFAULT_RATING]
    norm_num
    ring
  have hstep1' : applyBattle [("A", ⟨1500, 0⟩), ("B", ⟨1500, 0⟩)]
      ⟨"d2", 1, "B_wins", ⟨"A"⟩, ⟨"B"⟩⟩ = [("A", ⟨1484, 1⟩), ("B", ⟨1516, 1⟩)] := by
    simp [applyBattle, ensureEntry, lookupEntry, updateEntry, ratingOf,
      expectedScore, actualScores, ELO_K_FACTOR, ELO_DEFAULT_RATING]
    norm_num
  have hstep2' : applyBattle [("A", ⟨1484, 1⟩), ("B", ⟨1516, 1⟩)]
      ⟨"d1", 2, "A_wins", ⟨"A"⟩, ⟨"B"⟩⟩
      = [("A", ⟨1484 + 32 * (1 - 1 / (1 + (10:ℝ) ^ ((2:ℝ)/25))), 2⟩),
         ("B", ⟨1516 - 32 / (1 + (10:ℝ) ^ (-(2:ℝ)/25)), 2⟩)] := by
    simp [applyBattle, ensureEntry, lookupEntry, updateEntry, ratingOf,
      expectedScore, actualScores, ELO_K_FACTOR, ELO_DEFAULT_RATING]
    norm_num
    ring
  have hrun1 : ratingOf (calculateElo
      [⟨"d1", 1, "A_wins", ⟨"A"⟩, ⟨"B"⟩⟩, ⟨"d2", 2, "B_wins", ⟨"A"⟩, ⟨"B"⟩⟩]) "A"
      = 1516 - 32 / (1 + (10:ℝ) ^ (-(2:ℝ)/25)) := by
    have hinit : initialScores
        [⟨"d1", 1, "A_wins", ⟨"A"⟩, ⟨"B"⟩⟩, ⟨"d2", 2, "B_wins", ⟨"A"⟩, ⟨"B"⟩⟩]
        = [("A", ⟨1500, 0⟩), ("B", ⟨1500, 0⟩)] := by
      unfold initialScores
      rw [show modelNamesList
        [⟨"d1", 1, "A_wins", ⟨"A"⟩, ⟨"B"⟩⟩, ⟨"d2", 2, "B_wins", ⟨"A"⟩, ⟨"B"⟩⟩]
        = ["A", "B"] from by decide]
      rfl
    unfold calculateElo
    rw [show sortBattles
      [⟨"d1", 1, "A_wins", ⟨"A"⟩, ⟨"B"⟩⟩, ⟨"d2", 2, "B_wins", ⟨"A"⟩, ⟨"B"⟩⟩]
      = [⟨"d1", 1, "A_wins", ⟨"A"⟩, ⟨"B"⟩⟩, ⟨"d2", 2, "B_wins", ⟨"A"⟩, ⟨"B"⟩⟩]
      from by decide, hinit]
    simp only [List.foldl_cons, List.foldl_nil]
    rw [hstep1, hstep2]
    simp [ratingOf, lookupEntry]
  have hrun2 : ratingOf (calculateElo
      [⟨"d1", 2, "A_wins", ⟨"A"⟩, ⟨"B"⟩⟩, ⟨"d2", 1, "B_wins", ⟨"A"⟩, ⟨"B"⟩⟩]) "A"
      = 1484 + 32 * (1 - 1 / (1 + (10:ℝ) ^ ((2:ℝ)/25))) := by
    have hinit : initialScores
        [⟨"d1", 2, "A_wins", ⟨"A"⟩, ⟨"B"⟩⟩, ⟨"d2", 1, "B_wins", ⟨"A"⟩, ⟨"B"⟩⟩]
        = [("A", ⟨1500, 0⟩), ("B", ⟨1500, 0⟩)] := by
      unfold initialScores
      rw [show modelNamesList
        [⟨"d1", 2, "A_wins", ⟨"A"⟩, ⟨"B"⟩⟩, ⟨"d2", 1, "B_wins", ⟨"A"⟩, ⟨"B"⟩⟩]
        = ["A", "B"] from by decide]
      rfl
    unfold calculateElo
    rw [show sortBattles
      [⟨"d1", 2, "A_wins", ⟨"A"⟩, ⟨"B"⟩⟩, ⟨"d2", 1, "B_wins", ⟨"A"⟩, ⟨"B"⟩⟩]
      = [⟨"d2", 1, "B_wins", ⟨"A"⟩, ⟨"B"⟩⟩, ⟨"d1", 2, "A_wins", ⟨"A"⟩, ⟨"B"⟩⟩]
      from by decide, hinit]
    simp only [List.foldl_cons, List.foldl_nil]
    rw [hstep1', hstep2']
    simp [ratingOf, lookupEntry]
  rw [hrun1, hrun2]
  have hpq : (10:ℝ) ^ (-(2:ℝ)/25) < (10:ℝ) ^ ((2:ℝ)/25) :=
    Real.rpow_lt_rpow_of_exponent_lt (by norm_num) (by norm_num)
  have hp : (0:ℝ) < (10:ℝ) ^ (-(2:ℝ)/25) := Real.rpow_pos_of_pos (by norm_num) _
  have hq : (0:ℝ) < (10:ℝ) ^ ((2:ℝ)/25) := Real.rpow_pos_of_pos (by norm_num) _
  have h1 : (0:ℝ) < 1 + (10:ℝ) ^ (-(2:ℝ)/25) := by linarith
  have h2 : (0:ℝ) < 1 + (10:ℝ) ^ ((2:ℝ)/25) := by linarith
  intro h
  field_simp at h
  nlinarith [hpq, hp, hq]

/-- C8: the computation is deterministic — a second invocation, which in
the source receives the array as the first invocation left it (sorted in
place by line 44), produces the same mapping entry for every participant —
and the empty collection yields the empty mapping. -/
theorem claim_C8 :
    (∀ (battles : List Battle) (name : String),
      lookupEntry (calculateElo (calculateEloArrayAfter battles)) name
        = lookupEntry (calculateElo battles) name)
      ∧ calculateElo [] = ([] : EloTable) := by
  constructor
  · intro battles name
    unfold calculateElo calculateEloArrayAfter
    rw [sortBattles_idem]
    exact lookup_foldl_applyBattle_congr
      (fun x => lookup_initialScores_congr (sortBattles_perm battles) x)
      (sortBattles battles) name
  · rfl

/-- C9: looking up a battle by an identifier matching no battle in the
collection yields the explicit not-found result (`none`), not an
exception. -/
theorem claim_C9 (battles : List Battle) (battleId : String)
    (h : ∀ b ∈ battles, b.battle_id ≠ battleId) :
    findBattle battles battleId = none := by
  unfold findBattle
  rw [List.find?_eq_none]
  intro b hb
  simp [h b hb]

theorem claim_C9_witness :
    findBattle
      [⟨"b1", 1, "tie", ⟨"A"⟩, ⟨"B"⟩⟩, ⟨"b2", 2, "tie", ⟨"A"⟩, ⟨"C"⟩⟩,
       ⟨"b3", 3, "tie", ⟨"B"⟩, ⟨"C"⟩⟩] "b4" = none :=
  claim_C9
    [⟨"b1", 1, "tie", ⟨"A"⟩, ⟨"B"⟩⟩, ⟨"b2", 2, "tie", ⟨"A"⟩, ⟨"C"⟩⟩,
     ⟨"b3", 3, "tie", ⟨"B"⟩, ⟨"C"⟩⟩] "b4" (by decide)

/-- C10: under exact real arithmetic the two expected scores of a battle
sum to 1 and the two actual scores sum to 1; a battle between two distinct
participants therefore changes their ratings by exactly opposite amounts;
and consequently the ratings in the returned mapping always sum to the
default rating times the number of (distinct) participants. -/
theorem claim_C10 :
    (∀ x y : ℝ, expectedScore x y + expectedScore y x = 1)
      ∧ (∀ b : Battle, (actualScores b).1 + (actualScores b).2 = 1)
      ∧ (∀ (t : EloTable) (b : Battle) (ea eb : EloEntry),
          lookupEntry t b.model_A_info.name = some ea →
          lookupEntry t b.model_B_info.name = some eb →
          b.model_A_info.name ≠ b.model_B_info.name →
          ratingOf (applyBattle t b) b.model_A_info.name
              - ratingOf t b.model_A_info.name
            = -(ratingOf (applyBattle t b) b.model_B_info.name
              - ratingOf t b.model_B_info.name))
      ∧ ∀ battles : List Battle,
          sumRatings (calculateElo battles)
              = ELO_DEFAULT_RATING * ((calculateElo battles).length : ℝ)
            ∧ ((calculateElo battles).map Prod.fst).Nodup := by
  refine ⟨expectedScore_add_expectedScore, actualScores_fst_add_snd, ?_, ?_⟩
  · intro t b ea eb hA hB hAB
    have hl := lookup_applyBattle hA hB hAB
    have hra : ratingOf t b.model_A_info.name = ea.rating := by simp [ratingOf, hA]
    have hrb : ratingOf t b.model_B_info.name = eb.rating := by simp [ratingOf, hB]
    have h1 : ratingOf (applyBattle t b) b.model_A_info.name
        = ea.rating + ELO_K_FACTOR * ((actualScores b).1
          - expectedScore ea.rating eb.rating) := by
      rw [ratingOf, hl b.model_A_info.name, if_pos rfl]
      rfl
    have h2 : ratingOf (applyBattle t b) b.model_B_info.name
        = eb.rating + ELO_K_FACTOR * ((actualScores b).2
          - expectedScore eb.rating ea.rating) := by
      rw [ratingOf, hl b.model_B_info.name, if_neg (fun e => hAB e.symm), if_pos rfl]
      rfl
    rw [h1, h2, hra, hrb]
    have hE := expectedScore_add_expectedScore ea.rating eb.rating
    have hS := actualScores_fst_add_snd b
    linear_combination (ELO_K_FACTOR : ℝ) * (hS - hE)
  · intro battles
    have hkeys : (calculateElo battles).map Prod.fst = modelNamesList battles := by
      unfold calculateElo
      rw [keys_foldl (presence_in_initial battles), keys_initialScores]
    have hlen : (calculateElo battles).length = (modelNamesList battles).length := by
      rw [← List.length_map (calculateElo battles) Prod.fst, hkeys]
    constructor
    · rw [hlen]
      unfold calculateElo
      rw [sumRatings_foldl (presence_in_initial battles), sumRatings_initialScores]
    · rw [hkeys]
      exact nodup_modelNamesList battles

theorem claim_C10_witness :
    ratingOf (applyBattle [("A", (⟨1500, 0⟩ : EloEntry)), ("B", ⟨1400, 3⟩)]
          ⟨"w3", 9, "B_wins", ⟨"A"⟩, ⟨"B"⟩⟩) "A"
        - ratingOf [("A", (⟨1500, 0⟩ : EloEntry)), ("B", ⟨1400, 3⟩)] "A"
      = -(ratingOf (applyBattle [("A", (⟨1500, 0⟩ : EloEntry)), ("B", ⟨1400, 3⟩)]
          ⟨"w3", 9, "B_wins", ⟨"A"⟩, ⟨"B"⟩⟩) "B"
        - ratingOf [("A", (⟨1500, 0⟩ : EloEntry)), ("B", ⟨1400, 3⟩)] "B") :=
  claim_C10.2.2.1 [("A", ⟨1500, 0⟩), ("B", ⟨1400, 3⟩)]
    ⟨"w3", 9, "B_wins", ⟨"A"⟩, ⟨"B"⟩⟩ ⟨1500, 0⟩ ⟨1400, 3⟩ rfl rfl (by decide)

end Cob
